import Mathlib

/-!
# Verification of the traid post-triggered OCO backtester

Shallow embedding of `src/backtest/bt_trump_oco.py`.

Modelling conventions:

* Python floats are modelled as exact rationals (`ℚ`); timestamps are rationals
  measured in seconds.
* `pandas` time-based rolling windows (`rolling("60s")`, `rolling("1s")`) use
  the default `closed='right'`, i.e. for the row at time `t` the window
  contains the rows at positions `≤` the current one whose timestamp lies in
  the half-open interval `(t - w, t]`.  The embedding reproduces that.
* `pandas.Index.searchsorted` / the arming lookup in `simulate_trades`
  resolves, on the sorted book index, to the first update whose timestamp is
  at or after the arm time; this is modelled with `List.dropWhile`.
* The sample standard deviation (`pandas` `.std()`, `ddof = 1`) is the only
  operation of the source that leaves the rationals.  The rational pipeline
  `computeBookMetrics` therefore takes the standard-deviation function as an
  explicit parameter `std : List ℚ → ℚ`; trade-level theorems are proved for
  every such function.  The faithful real-valued metric itself is
  `rolling_1s_stdev_bp`, built from `Real.sqrt` of the sample variance.
* Fallible lookups are `Option`s; an event that never produces a trade is a
  `none` filtered out of the result list, exactly like the `continue` /
  fall-through of the source loop.
-/

/-- Trade direction, `"long"` / `"short"` in the source. -/
inductive Side where
  | long
  | short
deriving DecidableEq, Repr

/-- Exit reason, `"tp"` / `"sl"` / `"time"` in the source. -/
inductive Reason where
  | tp
  | sl
  | time
deriving DecidableEq, Repr

/-- One raw book update: `timestamp`, `price`, and the optional `spread_bp`
column (`row.get("spread_bp", 0.0)`): a missing column is modelled by the
caller passing `0`. -/
structure BookRow where
  ts : ℚ
  price : ℚ
  spreadBp : ℚ
deriving DecidableEq, Repr

/-- A book update as produced by `compute_book_metrics`: the raw columns
together with the derived `baseline_high`, `baseline_low` and
`rolling_1s_stdev_bp` columns. -/
structure AnnRow where
  ts : ℚ
  price : ℚ
  spreadBp : ℚ
  high : ℚ
  low : ℚ
  stdevBp : ℚ
deriving DecidableEq, Repr

/-- The `Trade` dataclass of the source. -/
structure Trade where
  postTime : ℚ
  entryTime : ℚ
  exitTime : ℚ
  side : Side
  entryPrice : ℚ
  exitPrice : ℚ
  pnlBp : ℚ
  exitReason : Reason
deriving DecidableEq, Repr

/-- Stable insertion of a row into a timestamp-sorted list (helper for
`sortByTs`). -/
def insertTs (r : BookRow) : List BookRow → List BookRow
  | [] => [r]
  | x :: xs => if r.ts ≤ x.ts then r :: x :: xs else x :: insertTs r xs

/-- `df.sort_values("timestamp")` of `compute_book_metrics`: sort the raw book
by timestamp. -/
def sortByTs : List BookRow → List BookRow
  | [] => []
  | x :: xs => insertTs x (sortByTs xs)

/-- Maximum of a price list (`rolling(...).max()` over a window; windows are
never empty since they contain the current row). -/
def listMax : List ℚ → ℚ
  | [] => 0
  | x :: xs => xs.foldl max x

/-- Minimum of a price list (`rolling(...).min()`). -/
def listMin : List ℚ → ℚ
  | [] => 0
  | x :: xs => xs.foldl min x

/-- The prices a `pandas` time-based rolling window of width `w` sees for the
row `cur` at position `i` of the sorted book: the rows at positions `≤ i`
whose timestamp lies in the half-open interval `(cur.ts - w, cur.ts]`
(`closed='right'`, the default for offset windows). -/
def winPrices (w : ℚ) (rows : List BookRow) (i : ℕ) (cur : BookRow) : List ℚ :=
  ((rows.take (i + 1)).filter (fun r => decide (cur.ts - r.ts < w))).map (fun r => r.price)

/-- Sample variance with `ddof = 1`, the square of `pandas` `.std()`.  Only
meaningful on lists of length `≥ 2`, matching its use sites. -/
def sampleVar (l : List ℚ) : ℚ :=
  let n : ℚ := l.length
  let mean := l.sum / n
  ((l.map (fun x => (x - mean) ^ 2)).sum) / (n - 1)

/-- The annotated row `compute_book_metrics` produces for the row `cur` at
position `i` of the sorted book: 60-second rolling high/low baselines and the
1-second rolling standard deviation in basis points.  `pandas` `.std()` of a
single sample is `NaN`, turned into `0` by `.fillna(0)`; that is the
`if … < 2` branch.  `std` is the standard-deviation function itself
(see the module docstring). -/
def metricsAt (std : List ℚ → ℚ) (rows : List BookRow) (i : ℕ) (cur : BookRow) : AnnRow :=
  let w60 := winPrices 60 rows i cur
  let w1 := winPrices 1 rows i cur
  { ts := cur.ts
    price := cur.price
    spreadBp := cur.spreadBp
    high := listMax w60
    low := listMin w60
    stdevBp := (if w1.length < 2 then 0 else std w1) / cur.price * 10000 }

/-- Walk the sorted book, annotating each row; `i` is the position of the head
of the second argument inside `rows`. -/
def metricsGo (std : List ℚ → ℚ) (rows : List BookRow) : ℕ → List BookRow → List AnnRow
  | _, [] => []
  | i, cur :: rest => metricsAt std rows i cur :: metricsGo std rows (i + 1) rest

/-- `compute_book_metrics`: sort the book by timestamp and add the
`baseline_high`, `baseline_low` and `rolling_1s_stdev_bp` columns. -/
def computeBookMetrics (std : List ℚ → ℚ) (book : List BookRow) : List AnnRow :=
  let rows := sortByTs book
  metricsGo std rows 0 rows

/-- `calc_x_bp`: width of the breakout bands in bp,
`min(8.0, max(2.0, 0.5 * stdev_bp))`. -/
def calc_x_bp (stdevBp : ℚ) : ℚ :=
  min 8 (max 2 (0.5 * stdevBp))

/-- `std.fillna(0) / price * 10000` applied to one window: `0` when the window
holds fewer than two samples (the `NaN → 0` case), else the sample standard
deviation, normalised by the current price into basis points. -/
noncomputable def stdevBpOf (win : List ℚ) (price : ℚ) : ℝ :=
  (if win.length < 2 then 0 else Real.sqrt (sampleVar win)) / (price : ℝ) * 10000

/-- The faithful real-valued `rolling_1s_stdev_bp` column of
`compute_book_metrics` at position `i` of the sorted book. -/
noncomputable def rolling_1s_stdev_bp (book : List BookRow) (i : ℕ) : ℝ :=
  match (sortByTs book)[i]? with
  | none => 0
  | some cur => stdevBpOf (winPrices 1 (sortByTs book) i cur) cur.price

/-- Follows the spec's words, for comparison with the code (C3):
`baseline_high(t) = max(price over [t-60s, t])`, a closed trailing window,
both endpoints included. -/
def specBaselineHigh (book : List BookRow) (i : ℕ) : ℚ :=
  match (sortByTs book)[i]? with
  | none => 0
  | some cur =>
      listMax (((sortByTs book).filter
        (fun r => decide (cur.ts - 60 ≤ r.ts ∧ r.ts ≤ cur.ts))).map (fun r => r.price))

/-- Follows the spec's words, for comparison with the code (C3): closed-window
`baseline_low(t) = min(price over [t-60s, t])`. -/
def specBaselineLow (book : List BookRow) (i : ℕ) : ℚ :=
  match (sortByTs book)[i]? with
  | none => 0
  | some cur =>
      listMin (((sortByTs book).filter
        (fun r => decide (cur.ts - 60 ≤ r.ts ∧ r.ts ≤ cur.ts))).map (fun r => r.price))

/-- Follows the spec's words, for comparison with the code (C4):
`rolling_stdev_bp(t) = stdev(price over [t-1s, t]) / price(t) × 10,000`, a
closed trailing window, `0` when it holds fewer than two samples. -/
noncomputable def specRollingStdevBp (book : List BookRow) (i : ℕ) : ℝ :=
  match (sortByTs book)[i]? with
  | none => 0
  | some cur =>
      stdevBpOf (((sortByTs book).filter
        (fun r => decide (cur.ts - 1 ≤ r.ts ∧ r.ts ≤ cur.ts))).map (fun r => r.price)) cur.price

/-- Stable insertion for rational timestamps (helper for `alignPosts`). -/
def insertQ (q : ℚ) : List ℚ → List ℚ
  | [] => [q]
  | x :: xs => if q ≤ x then q :: x :: xs else x :: insertQ q xs

/-- Sort a list of rational timestamps (helper for `alignPosts`). -/
def sortQ : List ℚ → List ℚ
  | [] => []
  | x :: xs => insertQ x (sortQ xs)

/-- `align_posts`: floor each post timestamp to the second and group; the
simulator only consumes the resulting index, i.e. the sorted deduplicated
list of floored timestamps. -/
def alignPosts (posts : List ℚ) : List ℚ :=
  (sortQ (posts.map (fun t => ((⌊t⌋ : ℤ) : ℚ)))).dedup

/-- `long_stop = baseline_high * (1 + x_bp / 10000)` from the armed update. -/
def longStopOf (cur : AnnRow) : ℚ :=
  cur.high * (1 + calc_x_bp cur.stdevBp / 10000)

/-- `short_stop = baseline_low * (1 - x_bp / 10000)` from the armed update. -/
def shortStopOf (cur : AnnRow) : ℚ :=
  cur.low * (1 - calc_x_bp cur.stdevBp / 10000)

/-- `slippage_bp = max(0.5 * spread_bp, slip_bp_param)` at one book update. -/
def slippageBpOf (slip : ℚ) (r : AnnRow) : ℚ :=
  max (0.5 * r.spreadBp) slip

/-- The per-event mutable state of the source loop: `position is None`, or an
open position with its `entry_price`, `entry_time`, `tp`, `sl` and
`time_exit`. -/
inductive PosState where
  | idle
  | opened (side : Side) (entryPrice entryTime tp sl timeExit : ℚ)
deriving DecidableEq, Repr

/-- The `for t, row in book.iloc[start_idx:]` loop of `simulate_trades`, one
event at a time: in the idle state look for a breakout entry (Long checked
first), in the open state evaluate the bracket exits in the order
tp → sl → time; the first exit builds the `Trade` and stops the scan. -/
def scan (slip longStop shortStop postTime : ℚ) : PosState → List AnnRow → Option Trade
  | _, [] => none
  | PosState.idle, r :: rest =>
      let slippageBp := slippageBpOf slip r
      if longStop ≤ r.price then
        let entryPrice := longStop * (1 + slippageBp / 10000)
        scan slip longStop shortStop postTime
          (PosState.opened Side.long entryPrice r.ts
            (entryPrice * (1 + 12 / 10000)) (entryPrice * (1 - 6 / 10000)) (r.ts + 180)) rest
      else if r.price ≤ shortStop then
        let entryPrice := shortStop * (1 - slippageBp / 10000)
        scan slip longStop shortStop postTime
          (PosState.opened Side.short entryPrice r.ts
            (entryPrice * (1 - 12 / 10000)) (entryPrice * (1 + 6 / 10000)) (r.ts + 180)) rest
      else scan slip longStop shortStop postTime PosState.idle rest
  | PosState.opened side ep et tp sl te, r :: rest =>
      match side with
      | Side.long =>
          if tp ≤ r.price then
            some ⟨postTime, et, r.ts, Side.long, ep, tp, (tp - ep) / ep * 10000, Reason.tp⟩
          else if r.price ≤ sl then
            some ⟨postTime, et, r.ts, Side.long, ep, sl, (sl - ep) / ep * 10000, Reason.sl⟩
          else if te ≤ r.ts then
            some ⟨postTime, et, r.ts, Side.long, ep, r.price, (r.price - ep) / ep * 10000,
              Reason.time⟩
          else scan slip longStop shortStop postTime (PosState.opened side ep et tp sl te) rest
      | Side.short =>
          if r.price ≤ tp then
            some ⟨postTime, et, r.ts, Side.short, ep, tp, (ep - tp) / ep * 10000, Reason.tp⟩
          else if sl ≤ r.price then
            some ⟨postTime, et, r.ts, Side.short, ep, sl, (ep - sl) / ep * 10000, Reason.sl⟩
          else if te ≤ r.ts then
            some ⟨postTime, et, r.ts, Side.short, ep, r.price, (ep - r.price) / ep * 10000,
              Reason.time⟩
          else scan slip longStop shortStop postTime (PosState.opened side ep et tp sl te) rest

/-- One triggering event of `simulate_trades`: arm at the first book update at
or after `post_time + latency` (the `searchsorted` / `get_loc` branch on the
sorted index), derive the stops from that update, and run the forward scan
from it.  No update at or after the arm time means no trade. -/
def simulateEvent (slip lat : ℚ) (book : List AnnRow) (postTime : ℚ) : Option Trade :=
  match book.dropWhile (fun r => decide (r.ts < postTime + lat)) with
  | [] => none
  | cur :: rest =>
      scan slip (longStopOf cur) (shortStopOf cur) postTime PosState.idle (cur :: rest)

/-- `simulate_trades`: align the posts, annotate the book, read
`slip_bp_param` from the configuration (default `1.0`), and simulate each
triggering event independently, collecting the trades in post order.
`latencyMs` is in milliseconds, as in the source CLI. -/
def simulate_trades (std : List ℚ → ℚ) (posts : List ℚ) (book : List BookRow)
    (config : Option ℚ) (latencyMs : ℚ) : List Trade :=
  let alignedPosts := alignPosts posts
  let annBook := computeBookMetrics std book
  let slipParam := config.getD 1
  alignedPosts.filterMap (fun pt => simulateEvent slipParam (latencyMs / 1000) annBook pt)

/-- The price stream of the time-stop scenario (`test_time_stop`): flat at
`100` for one second, then constant at `100.03` for 199 seconds, one update
per second, no spread column. -/
def c7book : List BookRow :=
  (List.range 200).map (fun n => ⟨n, if n = 0 then 100 else 100.03, 0⟩)

/-- A two-update book whose second update is exactly 60 seconds after the
first: it separates the closed window `[t-60, t]` from the half-open window
`(t-60, t]` used by the code. -/
def c3book : List BookRow := [⟨0, 100, 0⟩, ⟨60, 50, 0⟩]

/-- A two-update book whose second update is exactly one second after the
first: the closed window `[t-1, t]` holds two samples of different prices,
the half-open window `(t-1, t]` only one. -/
def c4book : List BookRow := [⟨0, 100, 0⟩, ⟨1, 102, 0⟩]

/-- A book whose updates are out of chronological order (and a later third
update so that the re-sorted stream completes a trade). -/
def c8bad : List BookRow := [⟨60, 50, 0⟩, ⟨0, 100, 0⟩, ⟨61, 49, 0⟩]

/-- A small in-order book on which a long breakout entry and take-profit exit
occur, used to exercise a negative `slip_bp_param`. -/
def c9book : List BookRow := [⟨0, 100, 0⟩, ⟨1, 101, 0⟩, ⟨2, 103, 0⟩]

/-! ## Band calculator (C5) -/

/-- C5: for every input `stdev_bp`, `calc_x_bp` is the clamp of
`0.5 * stdev_bp` to `[2, 8]`: it returns `2` for all inputs `≤ 4`, `8` for
all inputs `≥ 16`, exactly `0.5 * stdev_bp` in between, and it is monotone
non-decreasing. -/
theorem calc_x_bp_clamp (s : ℚ) :
    calc_x_bp s = min 8 (max 2 (0.5 * s)) ∧
    (s ≤ 4 → calc_x_bp s = 2) ∧
    (16 ≤ s → calc_x_bp s = 8) ∧
    (4 ≤ s → s ≤ 16 → calc_x_bp s = 0.5 * s) ∧
    (∀ t, s ≤ t → calc_x_bp s ≤ calc_x_bp t) := by
  refine ⟨rfl, ?_, ?_, ?_, ?_⟩
  · intro h
    have h2 : 0.5 * s ≤ 2 := by linarith
    rw [calc_x_bp, max_eq_left h2, min_eq_right (by norm_num)]
  · intro h
    have h8 : (8 : ℚ) ≤ 0.5 * s := by linarith
    rw [calc_x_bp, max_eq_right (by linarith), min_eq_left h8]
  · intro h4 h16
    rw [calc_x_bp, max_eq_right (by linarith), min_eq_right (by linarith)]
  · intro t hst
    have : 0.5 * s ≤ 0.5 * t := by linarith
    exact min_le_min le_rfl (max_le_max le_rfl this)

/-- Witness for C5 at concrete inputs. -/
theorem calc_x_bp_clamp_w :
    calc_x_bp 3 = 2 ∧ calc_x_bp 20 = 8 ∧ calc_x_bp 10 = 0.5 * 10 ∧
      calc_x_bp 3 ≤ calc_x_bp 10 :=
  ⟨(calc_x_bp_clamp 3).2.1 (by norm_num), (calc_x_bp_clamp 20).2.2.1 (by norm_num),
    (calc_x_bp_clamp 10).2.2.2.1 (by norm_num) (by norm_num),
    (calc_x_bp_clamp 3).2.2.2.2 10 (by norm_num)⟩

/-! ## Baseline window endpoints (C3) -/

/-- Counterexample to C3 as stated: the pandas rolling window is `(t-60, t]`,
not `[t-60, t]`.  On a book with updates at `t = 0` (price 100) and `t = 60`
(price 50), the code's `baseline_high` at the second update is `50`, while
the closed-window value demanded by the claim is `100`. -/
theorem baseline_closed_window_cex :
    (computeBookMetrics (fun _ => 0) c3book).map AnnRow.high = [100, 50] ∧
      specBaselineHigh c3book 1 = 100 ∧ ((50 : ℚ) ≠ 100) := by
  decide!

/-! ## Validation counterexamples (C8, C9) -/

/-- Counterexample to C8 as stated: a non-chronological book is not rejected;
`compute_book_metrics` silently re-sorts it and the simulation proceeds,
producing exactly the trades of the sorted stream. -/
theorem input_validation_cex :
    ¬ List.Pairwise (fun a b : BookRow => a.ts ≤ b.ts) c8bad ∧
      simulate_trades (fun _ => 0) [0] c8bad none 0 =
        simulate_trades (fun _ => 0) [0] (sortByTs c8bad) none 0 ∧
      (simulate_trades (fun _ => 0) [0] c8bad none 0).length = 1 := by
  decide!

/-- Counterexample to C9 as stated: a negative `slip_bp_param` is not
rejected at load time; it is read with `config.get` and used in
`slippage_bp = max(0.5 * spread_bp, slip_bp_param)`, so with zero spread the
slippage clamps to `0` and the simulation completes normally with entry at
the raw stop price `100.02`. -/
theorem config_validation_cex :
    simulate_trades (fun _ => 0) [0] c9book (some (-1)) 0 =
      [⟨0, 1, 2, Side.long, 5001/50, 12517503/125000, 12, Reason.tp⟩] ∧
      (-1 : ℚ) < 0 := by
  decide!

/-! ## Volatility window endpoints (C4): counterexample -/

/-- Counterexample to C4 as stated: the 1-second rolling window is `(t-1, t]`,
not `[t-1, t]`.  On a book with updates at `t = 0` (price 100) and `t = 1`
(price 102), the code's volatility at the second update is `0` (one sample in
the half-open window, `NaN` filled with 0), while the closed-window value
demanded by the claim is `sqrt 2 / 102 * 10000 ≠ 0`. -/
theorem stdev_closed_window_cex :
    rolling_1s_stdev_bp c4book 1 = 0 ∧ specRollingStdevBp c4book 1 ≠ 0 := by
  have hrow : (sortByTs c4book)[1]? = some ⟨1, 102, 0⟩ := by decide!
  have hwin : winPrices 1 (sortByTs c4book) 1 ⟨1, 102, 0⟩ = [102] := by decide!
  have hfil : ((sortByTs c4book).filter
      (fun r => decide (((1 : ℚ) - 1 ≤ r.ts ∧ r.ts ≤ (1 : ℚ))))).map (fun r => r.price)
      = [100, 102] := by decide!
  have hvar : sampleVar [100, 102] = 2 := by decide!
  constructor
  · rw [rolling_1s_stdev_bp, hrow]
    simp only [hwin, stdevBpOf]
    norm_num
  · rw [specRollingStdevBp, hrow]
    simp only [hfil, stdevBpOf, hvar]
    rw [if_neg (by norm_num)]
    positivity

/-! ## State-machine step lemmas for `scan` -/

theorem scan_nil (slip ls ss pt : ℚ) (st : PosState) : scan slip ls ss pt st [] = none := by
  cases st <;> rfl

theorem scan_idle_skip (slip ls ss pt : ℚ) (r : AnnRow) (rest : List AnnRow)
    (h1 : ¬ ls ≤ r.price) (h2 : ¬ r.price ≤ ss) :
    scan slip ls ss pt PosState.idle (r :: rest) = scan slip ls ss pt PosState.idle rest := by
  simp only [scan, if_neg h1, if_neg h2]

theorem scan_idle_append_skip (slip ls ss pt : ℚ) (pre l : List AnnRow)
    (h : ∀ p ∈ pre, p.price < ls ∧ ss < p.price) :
    scan slip ls ss pt PosState.idle (pre ++ l) = scan slip ls ss pt PosState.idle l := by
  induction pre with
  | nil => rfl
  | cons p ps ih =>
      have hp := h p (List.mem_cons_self p ps)
      rw [List.cons_append,
        scan_idle_skip slip ls ss pt p (ps ++ l) (not_le.mpr hp.1) (not_le.mpr hp.2),
        ih (fun q hq => h q (List.mem_cons_of_mem p hq))]

theorem scan_idle_enter_long (slip ls ss pt : ℚ) (r : AnnRow) (rest : List AnnRow)
    (h : ls ≤ r.price) :
    scan slip ls ss pt PosState.idle (r :: rest) =
      scan slip ls ss pt
        (PosState.opened Side.long (ls * (1 + slippageBpOf slip r / 10000)) r.ts
          ((ls * (1 + slippageBpOf slip r / 10000)) * (1 + 12 / 10000))
          ((ls * (1 + slippageBpOf slip r / 10000)) * (1 - 6 / 10000)) (r.ts + 180)) rest := by
  simp only [scan, if_pos h]

theorem scan_idle_enter_short (slip ls ss pt : ℚ) (r : AnnRow) (rest : List AnnRow)
    (h1 : ¬ ls ≤ r.price) (h2 : r.price ≤ ss) :
    scan slip ls ss pt PosState.idle (r :: rest) =
      scan slip ls ss pt
        (PosState.opened Side.short (ss * (1 - slippageBpOf slip r / 10000)) r.ts
          ((ss * (1 - slippageBpOf slip r / 10000)) * (1 - 12 / 10000))
          ((ss * (1 - slippageBpOf slip r / 10000)) * (1 + 6 / 10000)) (r.ts + 180)) rest := by
  simp only [scan, if_neg h1, if_pos h2]

theorem scan_long_skip (slip ls ss pt ep et tp sl te : ℚ) (r : AnnRow) (rest : List AnnRow)
    (h1 : ¬ tp ≤ r.price) (h2 : ¬ r.price ≤ sl) (h3 : ¬ te ≤ r.ts) :
    scan slip ls ss pt (PosState.opened Side.long ep et tp sl te) (r :: rest) =
      scan slip ls ss pt (PosState.opened Side.long ep et tp sl te) rest := by
  simp only [scan, if_neg h1, if_neg h2, if_neg h3]

theorem scan_long_append_skip (slip ls ss pt ep et tp sl te : ℚ) (pre l : List AnnRow)
    (h : ∀ p ∈ pre, p.price < tp ∧ sl < p.price ∧ p.ts < te) :
    scan slip ls ss pt (PosState.opened Side.long ep et tp sl te) (pre ++ l) =
      scan slip ls ss pt (PosState.opened Side.long ep et tp sl te) l := by
  induction pre with
  | nil => rfl
  | cons p ps ih =>
      have hp := h p (List.mem_cons_self p ps)
      rw [List.cons_append,
        scan_long_skip slip ls ss pt ep et tp sl te p (ps ++ l)
          (not_le.mpr hp.1) (not_le.mpr hp.2.1) (not_le.mpr hp.2.2),
        ih (fun q hq => h q (List.mem_cons_of_mem p hq))]

theorem scan_short_skip (slip ls ss pt ep et tp sl te : ℚ) (r : AnnRow) (rest : List AnnRow)
    (h1 : ¬ r.price ≤ tp) (h2 : ¬ sl ≤ r.price) (h3 : ¬ te ≤ r.ts) :
    scan slip ls ss pt (PosState.opened Side.short ep et tp sl te) (r :: rest) =
      scan slip ls ss pt (PosState.opened Side.short ep et tp sl te) rest := by
  simp only [scan, if_neg h1, if_neg h2, if_neg h3]

theorem scan_short_append_skip (slip ls ss pt ep et tp sl te : ℚ) (pre l : List AnnRow)
    (h : ∀ p ∈ pre, tp < p.price ∧ p.price < sl ∧ p.ts < te) :
    scan slip ls ss pt (PosState.opened Side.short ep et tp sl te) (pre ++ l) =
      scan slip ls ss pt (PosState.opened Side.short ep et tp sl te) l := by
  induction pre with
  | nil => rfl
  | cons p ps ih =>
      have hp := h p (List.mem_cons_self p ps)
      rw [List.cons_append,
        scan_short_skip slip ls ss pt ep et tp sl te p (ps ++ l)
          (not_le.mpr hp.1) (not_le.mpr hp.2.1) (not_le.mpr hp.2.2),
        ih (fun q hq => h q (List.mem_cons_of_mem p hq))]

theorem dropWhile_arm (p : AnnRow → Bool) (pre : List AnnRow) (cur : AnnRow) (rest : List AnnRow)
    (hpre : ∀ x ∈ pre, p x = true) (hcur : p cur = false) :
    (pre ++ cur :: rest).dropWhile p = cur :: rest := by
  induction pre with
  | nil => rw [List.nil_append, List.dropWhile_cons, hcur]; simp
  | cons x xs ih =>
      rw [List.cons_append, List.dropWhile_cons, hpre x (List.mem_cons_self x xs)]
      simpa using ih (fun y hy => hpre y (List.mem_cons_of_mem x hy))

theorem simulateEvent_armed (slip lat pt : ℚ) (pre : List AnnRow) (cur : AnnRow)
    (rest : List AnnRow) (hpre : ∀ p ∈ pre, p.ts < pt + lat) (hcur : pt + lat ≤ cur.ts) :
    simulateEvent slip lat (pre ++ cur :: rest) pt =
      scan slip (longStopOf cur) (shortStopOf cur) pt PosState.idle (cur :: rest) := by
  have hdrop : (pre ++ cur :: rest).dropWhile (fun r => decide (r.ts < pt + lat)) = cur :: rest :=
    dropWhile_arm _ pre cur rest (fun x hx => decide_eq_true (hpre x hx))
      (decide_eq_false (not_lt.mpr hcur))
  rw [simulateEvent, hdrop]

/-! ## Arming (C6) -/

/-- C6: arming locates the first book update whose timestamp is at or after
`arm_time = post_time + latency` (every earlier update is strictly before the
arm time) and the scan starts there; if every update is strictly before the
arm time — in particular when the arm time falls after the end of the stream —
the event produces no trade (`none`), a normal skip rather than an error. -/
theorem arming_first_at_or_after (slip lat pt : ℚ) (book : List AnnRow) :
    ((∀ r ∈ book, r.ts < pt + lat) → simulateEvent slip lat book pt = none) ∧
    (∀ pre cur rest, book = pre ++ cur :: rest →
      (∀ p ∈ pre, p.ts < pt + lat) → pt + lat ≤ cur.ts →
      simulateEvent slip lat book pt =
        scan slip (longStopOf cur) (shortStopOf cur) pt PosState.idle (cur :: rest)) := by
  constructor
  · intro h
    have hdrop : book.dropWhile (fun r => decide (r.ts < pt + lat)) = [] := by
      rw [List.dropWhile_eq_nil_iff]
      exact fun x hx => decide_eq_true (h x hx)
    rw [simulateEvent, hdrop]
  · intro pre cur rest hb hpre hcur
    rw [hb]
    exact simulateEvent_armed slip lat pt pre cur rest hpre hcur

/-- Witness for C6: with one update at `t = 0` and arm time `1`, no trade is
produced; with a second update at `t = 2`, that update is the armed one. -/
theorem arming_first_at_or_after_w :
    simulateEvent 1 0 [⟨0, 100, 0, 100, 100, 0⟩] 1 = none ∧
      simulateEvent 1 0 [⟨0, 100, 0, 100, 100, 0⟩, ⟨2, 100, 0, 100, 100, 0⟩] 1 =
        scan 1 (longStopOf ⟨2, 100, 0, 100, 100, 0⟩) (shortStopOf ⟨2, 100, 0, 100, 100, 0⟩) 1
          PosState.idle [⟨2, 100, 0, 100, 100, 0⟩] :=
  ⟨(arming_first_at_or_after 1 0 1 _).1 (by decide!),
    (arming_first_at_or_after 1 0 1 _).2 [⟨0, 100, 0, 100, 100, 0⟩] ⟨2, 100, 0, 100, 100, 0⟩ []
      rfl (by decide!) (by decide!)⟩

/-! ## Entry rule (C1) -/

/-- C1: after arming at the update `cur`, with `long_stop`/`short_stop`
derived from `cur`'s baselines and `x_bp`, and no earlier update of the scan
triggering either entry: at the first update `r` whose price reaches a stop
the simulator enters — Long when `price ≥ long_stop` (checked first, so Long
wins any tie), with
`entry_price = long_stop * (1 + slippage_bp/10000)`,
`slippage_bp = max(0.5*spread_bp, slip_bp_param)` taken at `r`; Short when
`price < long_stop` and `price ≤ short_stop`, with
`entry_price = short_stop * (1 - slippage_bp/10000)`; entering sets
`tp`, `sl` and `time_exit = entry_time + 180`. -/
theorem entry_rule (slip lat pt : ℚ) (pre pre2 rest2 : List AnnRow) (cur r : AnnRow)
    (rest : List AnnRow)
    (hpre : ∀ p ∈ pre, p.ts < pt + lat)
    (hcur : pt + lat ≤ cur.ts)
    (hsplit : cur :: rest = pre2 ++ r :: rest2)
    (hquiet : ∀ p ∈ pre2, p.price < longStopOf cur ∧ shortStopOf cur < p.price) :
    (longStopOf cur ≤ r.price →
      simulateEvent slip lat (pre ++ cur :: rest) pt =
        scan slip (longStopOf cur) (shortStopOf cur) pt
          (PosState.opened Side.long (longStopOf cur * (1 + slippageBpOf slip r / 10000)) r.ts
            ((longStopOf cur * (1 + slippageBpOf slip r / 10000)) * (1 + 12 / 10000))
            ((longStopOf cur * (1 + slippageBpOf slip r / 10000)) * (1 - 6 / 10000))
            (r.ts + 180)) rest2) ∧
    (r.price < longStopOf cur → r.price ≤ shortStopOf cur →
      simulateEvent slip lat (pre ++ cur :: rest) pt =
        scan slip (longStopOf cur) (shortStopOf cur) pt
          (PosState.opened Side.short (shortStopOf cur * (1 - slippageBpOf slip r / 10000)) r.ts
            ((shortStopOf cur * (1 - slippageBpOf slip r / 10000)) * (1 - 12 / 10000))
            ((shortStopOf cur * (1 - slippageBpOf slip r / 10000)) * (1 + 6 / 10000))
            (r.ts + 180)) rest2) := by
  have harm : simulateEvent slip lat (pre ++ cur :: rest) pt =
      scan slip (longStopOf cur) (shortStopOf cur) pt PosState.idle (r :: rest2) := by
    rw [simulateEvent_armed slip lat pt pre cur rest hpre hcur, hsplit,
      scan_idle_append_skip _ _ _ _ _ _ hquiet]
  exact ⟨fun h => by rw [harm, scan_idle_enter_long _ _ _ _ _ _ h],
    fun h1 h2 => by rw [harm, scan_idle_enter_short _ _ _ _ _ _ (not_le.mpr h1) h2]⟩

/-- Witness for C1: armed at `t = 0` with baselines `100` (stops `100.02` and
`99.98`), the armed update itself is quiet and the next update at price
`100.03` crosses the long stop. -/
theorem entry_rule_w :
    simulateEvent 1 0 [⟨0, 100, 0, 100, 100, 0⟩, ⟨1, 100.03, 0, 0, 0, 0⟩] 0 =
      scan 1 (longStopOf ⟨0, 100, 0, 100, 100, 0⟩) (shortStopOf ⟨0, 100, 0, 100, 100, 0⟩) 0
        (PosState.opened Side.long
          (longStopOf ⟨0, 100, 0, 100, 100, 0⟩ *
            (1 + slippageBpOf 1 ⟨1, 100.03, 0, 0, 0, 0⟩ / 10000)) 1
          ((longStopOf ⟨0, 100, 0, 100, 100, 0⟩ *
            (1 + slippageBpOf 1 ⟨1, 100.03, 0, 0, 0, 0⟩ / 10000)) * (1 + 12 / 10000))
          ((longStopOf ⟨0, 100, 0, 100, 100, 0⟩ *
            (1 + slippageBpOf 1 ⟨1, 100.03, 0, 0, 0, 0⟩ / 10000)) * (1 - 6 / 10000))
          ((1 : ℚ) + 180)) [] :=
  (entry_rule 1 0 0 [] [⟨0, 100, 0, 100, 100, 0⟩] [] ⟨0, 100, 0, 100, 100, 0⟩
      ⟨1, 100.03, 0, 0, 0, 0⟩ [⟨1, 100.03, 0, 0, 0, 0⟩]
      (by simp) (by decide!) rfl (by decide!)).1 (by decide!)

/-! ## Exit rule (C2) -/

/-- C2: from an entered position (entry price `ep`, entry time `et`, bracket
`tp = ep*(1+12bp)`, `sl = ep*(1-6bp)` for Long — sign-mirrored for Short —
and `time_exit = et + 180`), scanning forward past updates that satisfy no
exit condition, the first update `r` satisfying one produces the `Trade` (and
the scan stops, returning it): conditions are evaluated in the strict
priority TakeProfit, then StopLoss, then TimeExit, and
`pnl_bp = (exit-entry)/entry*10000` for Long,
`(entry-exit)/entry*10000` for Short. -/
theorem exit_rule (slip ls ss pt ep et : ℚ) (pre : List AnnRow) (r : AnnRow)
    (rest : List AnnRow) :
    ((∀ p ∈ pre, p.price < ep * (1 + 12 / 10000) ∧ ep * (1 - 6 / 10000) < p.price ∧
        p.ts < et + 180) →
      ((ep * (1 + 12 / 10000) ≤ r.price →
        scan slip ls ss pt
            (PosState.opened Side.long ep et (ep * (1 + 12 / 10000)) (ep * (1 - 6 / 10000))
              (et + 180)) (pre ++ r :: rest) =
          some ⟨pt, et, r.ts, Side.long, ep, ep * (1 + 12 / 10000),
            (ep * (1 + 12 / 10000) - ep) / ep * 10000, Reason.tp⟩) ∧
      (r.price < ep * (1 + 12 / 10000) → r.price ≤ ep * (1 - 6 / 10000) →
        scan slip ls ss pt
            (PosState.opened Side.long ep et (ep * (1 + 12 / 10000)) (ep * (1 - 6 / 10000))
              (et + 180)) (pre ++ r :: rest) =
          some ⟨pt, et, r.ts, Side.long, ep, ep * (1 - 6 / 10000),
            (ep * (1 - 6 / 10000) - ep) / ep * 10000, Reason.sl⟩) ∧
      (r.price < ep * (1 + 12 / 10000) → ep * (1 - 6 / 10000) < r.price → et + 180 ≤ r.ts →
        scan slip ls ss pt
            (PosState.opened Side.long ep et (ep * (1 + 12 / 10000)) (ep * (1 - 6 / 10000))
              (et + 180)) (pre ++ r :: rest) =
          some ⟨pt, et, r.ts, Side.long, ep, r.price,
            (r.price - ep) / ep * 10000, Reason.time⟩))) ∧
    ((∀ p ∈ pre, ep * (1 - 12 / 10000) < p.price ∧ p.price < ep * (1 + 6 / 10000) ∧
        p.ts < et + 180) →
      ((r.price ≤ ep * (1 - 12 / 10000) →
        scan slip ls ss pt
            (PosState.opened Side.short ep et (ep * (1 - 12 / 10000)) (ep * (1 + 6 / 10000))
              (et + 180)) (pre ++ r :: rest) =
          some ⟨pt, et, r.ts, Side.short, ep, ep * (1 - 12 / 10000),
            (ep - ep * (1 - 12 / 10000)) / ep * 10000, Reason.tp⟩) ∧
      (ep * (1 - 12 / 10000) < r.price → ep * (1 + 6 / 10000) ≤ r.price →
        scan slip ls ss pt
            (PosState.opened Side.short ep et (ep * (1 - 12 / 10000)) (ep * (1 + 6 / 10000))
              (et + 180)) (pre ++ r :: rest) =
          some ⟨pt, et, r.ts, Side.short, ep, ep * (1 + 6 / 10000),
            (ep - ep * (1 + 6 / 10000)) / ep * 10000, Reason.sl⟩) ∧
      (ep * (1 - 12 / 10000) < r.price → r.price < ep * (1 + 6 / 10000) → et + 180 ≤ r.ts →
        scan slip ls ss pt
            (PosState.opened Side.short ep et (ep * (1 - 12 / 10000)) (ep * (1 + 6 / 10000))
              (et + 180)) (pre ++ r :: rest) =
          some ⟨pt, et, r.ts, Side.short, ep, r.price,
            (ep - r.price) / ep * 10000, Reason.time⟩))) := by
  constructor
  · intro hq
    rw [scan_long_append_skip _ _ _ _ _ _ _ _ _ _ _ hq]
    refine ⟨fun h1 => ?_, fun h1 h2 => ?_, fun h1 h2 h3 => ?_⟩
    · simp only [scan, if_pos h1]
    · simp only [scan, if_neg (not_le.mpr h1), if_pos h2]
    · simp only [scan, if_neg (not_le.mpr h1), if_neg (not_le.mpr h2), if_pos h3]
  · intro hq
    rw [scan_short_append_skip _ _ _ _ _ _ _ _ _ _ _ hq]
    refine ⟨fun h1 => ?_, fun h1 h2 => ?_, fun h1 h2 h3 => ?_⟩
    · simp only [scan, if_pos h1]
    · simp only [scan, if_neg (not_le.mpr h1), if_pos h2]
    · simp only [scan, if_neg (not_le.mpr h1), if_neg (not_le.mpr h2), if_pos h3]

/-- Witness for C2: a long position entered at `100` with one quiet update,
then a take-profit exit at price `100.13 ≥ tp = 100.12`. -/
theorem exit_rule_w :
    scan 1 0 0 0
        (PosState.opened Side.long 100 0 (100 * (1 + 12 / 10000)) (100 * (1 - 6 / 10000))
          ((0 : ℚ) + 180))
        ([⟨1, 100, 0, 0, 0, 0⟩] ++ ⟨2, 100.13, 0, 0, 0, 0⟩ :: []) =
      some ⟨0, 0, 2, Side.long, 100, 100 * (1 + 12 / 10000),
        (100 * (1 + 12 / 10000) - 100) / 100 * 10000, Reason.tp⟩ :=
  ((exit_rule 1 0 0 0 100 0 [⟨1, 100, 0, 0, 0, 0⟩] ⟨2, 100.13, 0, 0, 0, 0⟩ []).1
    (by decide!)).1 (by decide!)

/-! ## Structure of produced trades (C10) -/

theorem scan_opened_some (slip ls ss pt ep et tp sl te : ℚ) (side : Side)
    (rows : List AnnRow) (tr : Trade)
    (h : scan slip ls ss pt (PosState.opened side ep et tp sl te) rows = some tr) :
    tr.entryTime = et ∧ ∃ r ∈ rows, tr.exitTime = r.ts := by
  induction rows with
  | nil => rw [scan_nil] at h; cases h
  | cons r rest ih =>
      cases side with
      | long =>
          by_cases h1 : tp ≤ r.price
          · simp only [scan, if_pos h1, Option.some.injEq] at h
            subst h
            exact ⟨rfl, r, List.mem_cons_self r rest, rfl⟩
          · by_cases h2 : r.price ≤ sl
            · simp only [scan, if_neg h1, if_pos h2, Option.some.injEq] at h
              subst h
              exact ⟨rfl, r, List.mem_cons_self r rest, rfl⟩
            · by_cases h3 : te ≤ r.ts
              · simp only [scan, if_neg h1, if_neg h2, if_pos h3, Option.some.injEq] at h
                subst h
                exact ⟨rfl, r, List.mem_cons_self r rest, rfl⟩
              · simp only [scan, if_neg h1, if_neg h2, if_neg h3] at h
                obtain ⟨he, r2, hr2, hex⟩ := ih h
                exact ⟨he, r2, List.mem_cons_of_mem r hr2, hex⟩
      | short =>
          by_cases h1 : r.price ≤ tp
          · simp only [scan, if_pos h1, Option.some.injEq] at h
            subst h
            exact ⟨rfl, r, List.mem_cons_self r rest, rfl⟩
          · by_cases h2 : sl ≤ r.price
            · simp only [scan, if_neg h1, if_pos h2, Option.some.injEq] at h
              subst h
              exact ⟨rfl, r, List.mem_cons_self r rest, rfl⟩
            · by_cases h3 : te ≤ r.ts
              · simp only [scan, if_neg h1, if_neg h2, if_pos h3, Option.some.injEq] at h
                subst h
                exact ⟨rfl, r, List.mem_cons_self r rest, rfl⟩
              · simp only [scan, if_neg h1, if_neg h2, if_neg h3] at h
                obtain ⟨he, r2, hr2, hex⟩ := ih h
                exact ⟨he, r2, List.mem_cons_of_mem r hr2, hex⟩

theorem scan_idle_some (slip ls ss pt : ℚ) (rows : List AnnRow) (tr : Trade)
    (h : scan slip ls ss pt PosState.idle rows = some tr) :
    ∃ pre r rest, rows = pre ++ r :: rest ∧ tr.entryTime = r.ts ∧
      ∃ r2 ∈ rest, tr.exitTime = r2.ts := by
  induction rows with
  | nil => rw [scan_nil] at h; cases h
  | cons r rest ih =>
      by_cases h1 : ls ≤ r.price
      · simp only [scan, if_pos h1] at h
        obtain ⟨he, r2, hr2, hex⟩ := scan_opened_some _ _ _ _ _ _ _ _ _ _ _ _ h
        exact ⟨[], r, rest, rfl, he, r2, hr2, hex⟩
      · by_cases h2 : r.price ≤ ss
        · simp only [scan, if_neg h1, if_pos h2] at h
          obtain ⟨he, r2, hr2, hex⟩ := scan_opened_some _ _ _ _ _ _ _ _ _ _ _ _ h
          exact ⟨[], r, rest, rfl, he, r2, hr2, hex⟩
        · simp only [scan, if_neg h1, if_neg h2] at h
          obtain ⟨pre, r', rest', heq, he, hex⟩ := ih h
          exact ⟨r :: pre, r', rest', by rw [heq, List.cons_append], he, hex⟩

theorem mem_insertTs (r : BookRow) (l : List BookRow) (b : BookRow) (hb : b ∈ insertTs r l) :
    b = r ∨ b ∈ l := by
  induction l with
  | nil => simpa [insertTs] using hb
  | cons x xs ih =>
      rw [insertTs] at hb
      by_cases hc : r.ts ≤ x.ts
      · rw [if_pos hc] at hb
        rcases List.mem_cons.mp hb with h | h
        · exact Or.inl h
        · exact Or.inr h
      · rw [if_neg hc] at hb
        rcases List.mem_cons.mp hb with h | h
        · exact Or.inr (h ▸ List.mem_cons_self x xs)
        · rcases ih h with h' | h'
          · exact Or.inl h'
          · exact Or.inr (List.mem_cons_of_mem x h')

theorem pairwise_insertTs (r : BookRow) (l : List BookRow)
    (h : List.Pairwise (fun a b : BookRow => a.ts ≤ b.ts) l) :
    List.Pairwise (fun a b : BookRow => a.ts ≤ b.ts) (insertTs r l) := by
  induction l with
  | nil => simp [insertTs]
  | cons x xs ih =>
      rw [List.pairwise_cons] at h
      rw [insertTs]
      by_cases hc : r.ts ≤ x.ts
      · rw [if_pos hc]
        refine List.pairwise_cons.mpr ⟨?_, List.pairwise_cons.mpr ⟨h.1, h.2⟩⟩
        intro b hb
        rcases List.mem_cons.mp hb with hb | hb
        · exact hb ▸ hc
        · exact le_trans hc (h.1 b hb)
      · rw [if_neg hc]
        refine List.pairwise_cons.mpr ⟨?_, ih h.2⟩
        intro b hb
        rcases mem_insertTs r xs b hb with hb | hb
        · exact hb ▸ le_of_not_le hc
        · exact h.1 b hb

theorem sortByTs_sorted (l : List BookRow) :
    List.Pairwise (fun a b : BookRow => a.ts ≤ b.ts) (sortByTs l) := by
  induction l with
  | nil => simp [sortByTs]
  | cons x xs ih => exact pairwise_insertTs x (sortByTs xs) ih

theorem sortByTs_eq_of_sorted (l : List BookRow)
    (h : List.Pairwise (fun a b : BookRow => a.ts ≤ b.ts) l) : sortByTs l = l := by
  induction l with
  | nil => rfl
  | cons x xs ih =>
      rw [List.pairwise_cons] at h
      rw [sortByTs, ih h.2]
      cases xs with
      | nil => rfl
      | cons y ys => rw [insertTs, if_pos (h.1 y (List.mem_cons_self y ys))]

theorem metricsGo_map_ts (std : List ℚ → ℚ) (rows : List BookRow) (i : ℕ) (l : List BookRow) :
    (metricsGo std rows i l).map AnnRow.ts = l.map BookRow.ts := by
  induction l generalizing i with
  | nil => rfl
  | cons cur rest ih => rw [metricsGo, List.map_cons, List.map_cons, ih]; rfl

theorem computeBookMetrics_pairwise_le (std : List ℚ → ℚ) (book : List BookRow) :
    List.Pairwise (fun a b : AnnRow => a.ts ≤ b.ts) (computeBookMetrics std book) := by
  have h : List.Pairwise (fun a b : ℚ => a ≤ b) ((sortByTs book).map BookRow.ts) :=
    List.pairwise_map.mpr (sortByTs_sorted book)
  rw [← metricsGo_map_ts std (sortByTs book) 0 (sortByTs book)] at h
  exact List.pairwise_map.mp h

theorem computeBookMetrics_pairwise_lt (std : List ℚ → ℚ) (book : List BookRow)
    (hb : List.Pairwise (fun a b : BookRow => a.ts < b.ts) book) :
    List.Pairwise (fun a b : AnnRow => a.ts < b.ts) (computeBookMetrics std book) := by
  have hsort : sortByTs book = book :=
    sortByTs_eq_of_sorted book (hb.imp le_of_lt)
  have h : List.Pairwise (fun a b : ℚ => a < b) ((sortByTs book).map BookRow.ts) := by
    rw [hsort]; exact List.pairwise_map.mpr hb
  rw [← metricsGo_map_ts std (sortByTs book) 0 (sortByTs book)] at h
  exact List.pairwise_map.mp h

/-- C10 (implicit invariant): exit conditions are never evaluated at the book
update where entry occurred — the exit row lies strictly later in the stream
than the entry row — so every produced trade has `exit_time ≥ entry_time`,
and `exit_time > entry_time` whenever the raw book timestamps are strictly
increasing; a take-profit or stop-loss touched only at the entry update does
not close the trade there. -/
theorem trade_times_ordered (std : List ℚ → ℚ) (posts : List ℚ) (book : List BookRow)
    (cfg : Option ℚ) (lat : ℚ) (tr : Trade)
    (htr : tr ∈ simulate_trades std posts book cfg lat) :
    tr.entryTime ≤ tr.exitTime ∧
      (List.Pairwise (fun a b : BookRow => a.ts < b.ts) book →
        tr.entryTime < tr.exitTime) := by
  simp only [simulate_trades] at htr
  obtain ⟨pt, _, hev⟩ := List.mem_filterMap.mp htr
  simp only [simulateEvent] at hev
  split at hev
  · cases hev
  case h_2 cur rest2 hdl =>
    obtain ⟨pre, r, rest', heq, hentry, r2, hr2, hexit⟩ :=
      scan_idle_some _ _ _ _ _ _ hev
    have hsub : (cur :: rest2).Sublist (computeBookMetrics std book) := by
      rw [← hdl]; exact List.dropWhile_sublist _
    constructor
    · have hs : List.Pairwise (fun a b : AnnRow => a.ts ≤ b.ts) (pre ++ r :: rest') := by
        rw [← heq]; exact (computeBookMetrics_pairwise_le std book).sublist hsub
      have h1 : r.ts ≤ r2.ts :=
        (List.pairwise_cons.mp (List.pairwise_append.mp hs).2.1).1 r2 hr2
      rw [hentry, hexit]; exact h1
    · intro hb
      have hs : List.Pairwise (fun a b : AnnRow => a.ts < b.ts) (pre ++ r :: rest') := by
        rw [← heq]; exact (computeBookMetrics_pairwise_lt std book hb).sublist hsub
      have h1 : r.ts < r2.ts :=
        (List.pairwise_cons.mp (List.pairwise_append.mp hs).2.1).1 r2 hr2
      rw [hentry, hexit]; exact h1

/-- Witness for C10 on a concrete run: the trade produced on `c9book` has
`entry_time = 1 < 2 = exit_time`. -/
theorem trade_times_ordered_w :
    ((1 : ℚ) ≤ 2) ∧
      (List.Pairwise (fun a b : BookRow => a.ts < b.ts) c9book → (1 : ℚ) < 2) :=
  trade_times_ordered (fun _ => 0) [0] c9book (some (-1)) 0
    ⟨0, 1, 2, Side.long, 5001/50, 12517503/125000, 12, Reason.tp⟩ (by decide!)

/-! ## Time-stop scenario (C7) -/

theorem metricsAt_congr_std (std1 std2 : List ℚ → ℚ) (rows : List BookRow) (i : ℕ)
    (cur : BookRow) (hc : (winPrices 1 rows i cur).length < 2) :
    metricsAt std1 rows i cur = metricsAt std2 rows i cur := by
  simp only [metricsAt, if_pos hc]

theorem metricsAt_zero_congr (std1 std2 : List ℚ → ℚ) (rows : List BookRow) (cur : BookRow) :
    metricsAt std1 rows 0 cur = metricsAt std2 rows 0 cur := by
  refine metricsAt_congr_std std1 std2 rows 0 cur ?_
  calc (winPrices 1 rows 0 cur).length
      = ((rows.take 1).filter (fun r => decide (cur.ts - r.ts < 1))).length := by
        rw [winPrices, List.length_map]
    _ ≤ (rows.take 1).length := List.length_filter_le _ _
    _ ≤ 1 := by rw [List.length_take]; exact min_le_left 1 _
    _ < 2 := by norm_num

theorem metricsGo_proj (std1 std2 : List ℚ → ℚ) (rows : List BookRow) (i : ℕ)
    (l : List BookRow) :
    (metricsGo std1 rows i l).map (fun r => (r.ts, r.price, r.spreadBp)) =
      (metricsGo std2 rows i l).map (fun r => (r.ts, r.price, r.spreadBp)) := by
  induction l generalizing i with
  | nil => rfl
  | cons cur rest ih =>
      rw [metricsGo, metricsGo, List.map_cons, List.map_cons, ih (i + 1)]
      rfl

theorem scan_proj_congr (slip ls ss pt : ℚ) (st : PosState) (l1 l2 : List AnnRow)
    (h : l1.map (fun r => (r.ts, r.price, r.spreadBp)) =
      l2.map (fun r => (r.ts, r.price, r.spreadBp))) :
    scan slip ls ss pt st l1 = scan slip ls ss pt st l2 := by
  induction l1 generalizing st l2 with
  | nil =>
      cases l2 with
      | nil => rfl
      | cons b bs => simp at h
  | cons a as ih =>
      cases l2 with
      | nil => simp at h
      | cons b bs =>
          simp only [List.map_cons, List.cons.injEq, Prod.mk.injEq] at h
          obtain ⟨⟨hts, hpr, hsp⟩, htl⟩ := h
          cases st with
          | idle =>
              simp only [scan, slippageBpOf, hts, hpr, hsp]
              by_cases h1 : ls ≤ b.price
              · rw [if_pos h1, if_pos h1]
                exact ih _ bs htl
              · rw [if_neg h1, if_neg h1]
                by_cases h2 : b.price ≤ ss
                · rw [if_pos h2, if_pos h2]
                  exact ih _ bs htl
                · rw [if_neg h2, if_neg h2]
                  exact ih _ bs htl
          | opened side ep et tp sl te =>
              cases side with
              | long =>
                  simp only [scan, hts, hpr]
                  by_cases h1 : tp ≤ b.price
                  · rw [if_pos h1, if_pos h1]
                  · rw [if_neg h1, if_neg h1]
                    by_cases h2 : b.price ≤ sl
                    · rw [if_pos h2, if_pos h2]
                    · rw [if_neg h2, if_neg h2]
                      by_cases h3 : te ≤ b.ts
                      · rw [if_pos h3, if_pos h3]
                      · rw [if_neg h3, if_neg h3]
                        exact ih _ bs htl
              | short =>
                  simp only [scan, hts, hpr]
                  by_cases h1 : b.price ≤ tp
                  · rw [if_pos h1, if_pos h1]
                  · rw [if_neg h1, if_neg h1]
                    by_cases h2 : sl ≤ b.price
                    · rw [if_pos h2, if_pos h2]
                    · rw [if_neg h2, if_neg h2]
                      by_cases h3 : te ≤ b.ts
                      · rw [if_pos h3, if_pos h3]
                      · rw [if_neg h3, if_neg h3]
                        exact ih _ bs htl

theorem metricsGo_getElem (std : List ℚ → ℚ) (rows : List BookRow) (i : ℕ)
    (l : List BookRow) (j : ℕ) :
    (metricsGo std rows i l)[j]? = l[j]?.map (fun cur => metricsAt std rows (i + j) cur) := by
  induction l generalizing i j with
  | nil => rw [metricsGo]; simp
  | cons cur rest ih =>
      cases j with
      | zero =>
          rw [metricsGo, List.getElem?_cons_zero, List.getElem?_cons_zero, Option.map_some',
            Nat.add_zero]
      | succ k =>
          rw [metricsGo, List.getElem?_cons_succ, List.getElem?_cons_succ, ih (i + 1) k]
          have harith : i + 1 + k = i + (k + 1) := by omega
          rw [harith]

set_option maxRecDepth 40000 in
set_option maxHeartbeats 1000000 in
theorem simulateEvent_c7_congr (std : List ℚ → ℚ) :
    simulateEvent ((none : Option ℚ).getD 1) ((0 : ℚ) / 1000)
      (computeBookMetrics std c7book) 0 =
      simulateEvent ((none : Option ℚ).getD 1) ((0 : ℚ) / 1000)
        (computeBookMetrics (fun _ => 0) c7book) 0 := by
  have h0 : (sortByTs c7book)[0]? = some (⟨0, 100, 0⟩ : BookRow) := by decide!
  have hg : ∀ s : List ℚ → ℚ, (computeBookMetrics s c7book)[0]? =
      some (metricsAt s (sortByTs c7book) 0 ⟨0, 100, 0⟩) := by
    intro s
    show (metricsGo s (sortByTs c7book) 0 (sortByTs c7book))[0]? = _
    rw [metricsGo_getElem, h0, Option.map_some', Nat.add_zero]
  have hdec : ∀ s : List ℚ → ℚ, ∃ t, computeBookMetrics s c7book =
      metricsAt s (sortByTs c7book) 0 ⟨0, 100, 0⟩ :: t := by
    intro s
    cases hl : computeBookMetrics s c7book with
    | nil =>
        have := hg s
        rw [hl] at this
        simp at this
    | cons b t =>
        have := hg s
        rw [hl, List.getElem?_cons_zero, Option.some.injEq] at this
        exact ⟨t, by rw [this]⟩
  obtain ⟨t1, ht1⟩ := hdec std
  obtain ⟨t2, ht2⟩ := hdec (fun _ => 0)
  have hhead : metricsAt std (sortByTs c7book) 0 ⟨0, 100, 0⟩ =
      metricsAt (fun _ => 0) (sortByTs c7book) 0 ⟨0, 100, 0⟩ :=
    metricsAt_zero_congr _ _ _ _
  have hproj : (computeBookMetrics std c7book).map (fun r => (r.ts, r.price, r.spreadBp)) =
      (computeBookMetrics (fun _ => 0) c7book).map (fun r => (r.ts, r.price, r.spreadBp)) :=
    metricsGo_proj std (fun _ => 0) (sortByTs c7book) 0 (sortByTs c7book)
  rw [ht1, ht2] at hproj
  simp only [List.map_cons, List.cons.injEq] at hproj
  have htails := hproj.2
  have hb : ∀ s : List ℚ → ℚ,
      (decide ((metricsAt s (sortByTs c7book) 0 ⟨0, 100, 0⟩).ts < (0 : ℚ) + 0 / 1000))
        = false := by
    intro s
    rw [decide_eq_false_iff_not]
    show ¬ ((0 : ℚ) < 0 + 0 / 1000)
    norm_num
  have hd : ∀ (s : List ℚ → ℚ) (t : List AnnRow),
      (metricsAt s (sortByTs c7book) 0 ⟨0, 100, 0⟩ :: t).dropWhile
        (fun r => decide (r.ts < (0 : ℚ) + 0 / 1000)) =
        metricsAt s (sortByTs c7book) 0 ⟨0, 100, 0⟩ :: t := by
    intro s t
    rw [List.dropWhile_cons, hb s, if_neg (by simp)]
  rw [ht1, ht2, simulateEvent, simulateEvent, hd std t1, hd (fun _ => 0) t2]
  rw [hhead]
  apply scan_proj_congr
  simp only [List.map_cons, List.cons.injEq]
  exact ⟨trivial, htails⟩

set_option maxRecDepth 40000 in
set_option maxHeartbeats 1000000 in
/-- C7: on the price stream flat at 100 for one second then constant at
100.03 for 199 seconds, one event at `t = 0`, zero latency and empty
configuration, the simulator produces exactly one trade — entered long at
`t = 1` — whose exit reason is the time exit at `t = 181`, with
`exit_time - entry_time = 180 ≥ 180`.  The statement holds for every
standard-deviation function: the scan reads only timestamp, price and spread
of the stream, and the armed update is the first row, whose 1-second window
is a singleton. -/
theorem time_stop_scenario (std : List ℚ → ℚ) :
    simulate_trades std [0] c7book none 0 =
      [⟨0, 1, 181, Side.long, 50015001/500000, 10003/100, -10000/50015001, Reason.time⟩] ∧
    ((181 : ℚ) - 1 ≥ 180) := by
  refine ⟨?_, by norm_num⟩
  have hzero : simulate_trades (fun _ => 0) [0] c7book none 0 =
      [⟨0, 1, 181, Side.long, 50015001/500000, 10003/100, -10000/50015001, Reason.time⟩] := by
    decide!
  have halign : alignPosts [0] = [0] := by decide!
  have hfm : ∀ b : List AnnRow,
      List.filterMap (fun pt => simulateEvent ((none : Option ℚ).getD 1) ((0 : ℚ) / 1000) b pt)
        [0] =
      (simulateEvent ((none : Option ℚ).getD 1) ((0 : ℚ) / 1000) b 0).toList := by
    intro b
    rw [List.filterMap_cons]
    cases simulateEvent ((none : Option ℚ).getD 1) ((0 : ℚ) / 1000) b 0 <;> simp
  have e1 : simulate_trades std [0] c7book none 0 =
      (simulateEvent ((none : Option ℚ).getD 1) ((0 : ℚ) / 1000)
        (computeBookMetrics std c7book) 0).toList := by
    show List.filterMap (fun pt => simulateEvent ((none : Option ℚ).getD 1) ((0 : ℚ) / 1000)
      (computeBookMetrics std c7book) pt) (alignPosts [0]) = _
    rw [halign, hfm]
  have e2 : simulate_trades (fun _ => 0) [0] c7book none 0 =
      (simulateEvent ((none : Option ℚ).getD 1) ((0 : ℚ) / 1000)
        (computeBookMetrics (fun _ => 0) c7book) 0).toList := by
    show List.filterMap (fun pt => simulateEvent ((none : Option ℚ).getD 1) ((0 : ℚ) / 1000)
      (computeBookMetrics (fun _ => 0) c7book) pt) (alignPosts [0]) = _
    rw [halign, hfm]
  rw [e1, simulateEvent_c7_congr std, ← e2, hzero]

/-! ## Input handling (C8): amended behaviour -/

/-- C8 amended: the program performs no input validation before simulation.
A non-chronological book is silently re-sorted inside `compute_book_metrics`
(simulation gives exactly the trades of the sorted stream), an empty posts
table yields an empty trade list, and an empty book yields an empty trade
list — none of these raises an error. -/
theorem no_input_validation (std : List ℚ → ℚ) (posts : List ℚ) (book : List BookRow)
    (cfg : Option ℚ) (lat : ℚ) :
    simulate_trades std posts book cfg lat = simulate_trades std posts (sortByTs book) cfg lat ∧
      simulate_trades std [] book cfg lat = [] ∧
      simulate_trades std posts [] cfg lat = [] := by
  refine ⟨?_, rfl, ?_⟩
  · have h : sortByTs (sortByTs book) = sortByTs book :=
      sortByTs_eq_of_sorted _ (sortByTs_sorted book)
    simp only [simulate_trades, computeBookMetrics, h]
  · simp only [simulate_trades]
    have hnone : ∀ l : List ℚ,
        l.filterMap (fun pt =>
          simulateEvent (cfg.getD 1) (lat / 1000) (computeBookMetrics std []) pt) = [] := by
      intro l
      induction l with
      | nil => rfl
      | cons x xs ih => rw [List.filterMap_cons]; exact ih
    exact hnone _

/-! ## Configuration handling (C9): amended behaviour -/

/-- C9 amended: `slip_bp_param` is read with `config.get(...)` and used
without any domain check; a non-positive value is silently propagated into
`slippage_bp = max(0.5 * spread_bp, slip_bp_param)`, so with zero spread the
slippage is `0` and a long breakout is entered exactly at the raw stop price
`long_stop`. -/
theorem negative_slip_accepted (s ls ss pt : ℚ) (hs : s ≤ 0) (r : AnnRow)
    (rest : List AnnRow) (hspread : r.spreadBp = 0) (hlong : ls ≤ r.price) :
    slippageBpOf s r = 0 ∧
      scan s ls ss pt PosState.idle (r :: rest) =
        scan s ls ss pt
          (PosState.opened Side.long ls r.ts (ls * (1 + 12 / 10000))
            (ls * (1 - 6 / 10000)) (r.ts + 180)) rest := by
  have h0 : slippageBpOf s r = 0 := by
    rw [slippageBpOf, hspread]
    norm_num [max_eq_left hs]
  refine ⟨h0, ?_⟩
  rw [scan_idle_enter_long _ _ _ _ _ _ hlong, h0]
  norm_num

/-- Witness for C9: slip `-1`, zero spread, long stop `100` reached at price
`100.05`. -/
theorem negative_slip_accepted_w :
    slippageBpOf (-1) ⟨1, 100.05, 0, 0, 0, 0⟩ = 0 ∧
      scan (-1) 100 90 0 PosState.idle [⟨1, 100.05, 0, 0, 0, 0⟩] =
        scan (-1) 100 90 0
          (PosState.opened Side.long 100 1 (100 * (1 + 12 / 10000))
            (100 * (1 - 6 / 10000)) ((1 : ℚ) + 180)) [] :=
  negative_slip_accepted (-1) 100 90 0 (by norm_num) ⟨1, 100.05, 0, 0, 0, 0⟩ []
    rfl (by decide!)

/-! ## Window characterisation (C3, C4 amended) -/

theorem winPrices_eq_filter (w : ℚ) (rows : List BookRow) (i : ℕ) (cur : BookRow)
    (hmono : List.Pairwise (fun a b : BookRow => a.ts < b.ts) rows)
    (hcur : rows[i]? = some cur) :
    winPrices w rows i cur =
      (rows.filter (fun r => decide (cur.ts - w < r.ts ∧ r.ts ≤ cur.ts))).map
        (fun r => r.price) := by
  obtain ⟨hi, hgel⟩ := List.getElem?_eq_some.mp hcur
  have hpg := List.pairwise_iff_getElem.mp hmono
  have htake_le : ∀ a ∈ rows.take (i + 1), a.ts ≤ cur.ts := by
    intro a ha
    obtain ⟨j, hj, hja⟩ := List.mem_iff_getElem.mp ha
    have hjb : j < i + 1 ∧ j < rows.length := by
      have := hj
      simp only [List.length_take, lt_min_iff] at this
      exact this
    rw [List.getElem_take] at hja
    rcases Nat.lt_or_ge j i with hlt | hge
    · have h1 : rows[j].ts < rows[i].ts := hpg j i hjb.2 hi hlt
      rw [hja, hgel] at h1
      exact le_of_lt h1
    · have hj_eq : j = i := Nat.le_antisymm (Nat.lt_succ_iff.mp hjb.1) hge
      subst hj_eq
      rw [hgel] at hja
      rw [← hja]
  have hdrop_gt : ∀ b ∈ rows.drop (i + 1), cur.ts < b.ts := by
    intro b hb
    obtain ⟨k, hk, hkb⟩ := List.mem_iff_getElem.mp hb
    have hkl : i + 1 + k < rows.length := by
      have := hk
      simp only [List.length_drop] at this
      omega
    rw [List.getElem_drop] at hkb
    have h1 : rows[i].ts < rows[i + 1 + k].ts := hpg i (i + 1 + k) hi hkl (by omega)
    rw [hgel, hkb] at h1
    exact h1
  conv_rhs => rw [← List.take_append_drop (i + 1) rows]
  rw [List.filter_append, List.map_append]
  have h2 : (rows.drop (i + 1)).filter
      (fun r => decide (cur.ts - w < r.ts ∧ r.ts ≤ cur.ts)) = [] := by
    rw [List.filter_eq_nil_iff]
    intro b hb
    simp only [decide_eq_true_eq, not_and, not_le]
    intro _
    exact hdrop_gt b hb
  rw [h2, List.map_nil, List.append_nil, winPrices]
  congr 1
  apply List.filter_congr
  intro a ha
  rw [decide_eq_decide]
  have hale := htake_le a ha
  constructor
  · intro h
    exact ⟨by linarith, hale⟩
  · intro h
    linarith [h.1]

/-- C3 corrected: for a book with strictly increasing timestamps,
`baseline_high(t)` / `baseline_low(t)` computed by `compute_book_metrics` are
the max / min price over the trailing window `(t-60s, t]` — the right
endpoint included and the left endpoint excluded (the pandas `closed='right'`
default), a time window correct under irregular spacing, not a fixed-count
window. -/
theorem baseline_open_window (std : List ℚ → ℚ) (book : List BookRow)
    (hmono : List.Pairwise (fun a b : BookRow => a.ts < b.ts) book)
    (i : ℕ) (cur : BookRow) (hcur : book[i]? = some cur) :
    ∃ row, (computeBookMetrics std book)[i]? = some row ∧
      row.high = listMax ((book.filter
        (fun r => decide (cur.ts - 60 < r.ts ∧ r.ts ≤ cur.ts))).map (fun r => r.price)) ∧
      row.low = listMin ((book.filter
        (fun r => decide (cur.ts - 60 < r.ts ∧ r.ts ≤ cur.ts))).map (fun r => r.price)) := by
  have hsort : sortByTs book = book := sortByTs_eq_of_sorted book (hmono.imp le_of_lt)
  have hg : (computeBookMetrics std book)[i]? = some (metricsAt std book i cur) := by
    show (metricsGo std (sortByTs book) 0 (sortByTs book))[i]? = _
    rw [metricsGo_getElem, hsort, hcur]
    simp
  refine ⟨metricsAt std book i cur, hg, ?_, ?_⟩
  · show listMax (winPrices 60 book i cur) = _
    rw [winPrices_eq_filter 60 book i cur hmono hcur]
  · show listMin (winPrices 60 book i cur) = _
    rw [winPrices_eq_filter 60 book i cur hmono hcur]

/-- Witness for the corrected C3 on `c3book` at position 1. -/
theorem baseline_open_window_w :
    ∃ row, (computeBookMetrics (fun _ => 0) c3book)[1]? = some row ∧
      row.high = listMax ((c3book.filter
        (fun r => decide ((⟨60, 50, 0⟩ : BookRow).ts - 60 < r.ts ∧
          r.ts ≤ (⟨60, 50, 0⟩ : BookRow).ts))).map (fun r => r.price)) ∧
      row.low = listMin ((c3book.filter
        (fun r => decide ((⟨60, 50, 0⟩ : BookRow).ts - 60 < r.ts ∧
          r.ts ≤ (⟨60, 50, 0⟩ : BookRow).ts))).map (fun r => r.price)) :=
  baseline_open_window (fun _ => 0) c3book (by decide!) 1 ⟨60, 50, 0⟩ (by decide!)

/-- C4 corrected: for a book with strictly increasing timestamps, the
volatility computed by `compute_book_metrics` equals
`stdev(price over (t-1s, t]) / price(t) * 10000` — half-open window, left
endpoint excluded (the pandas `closed='right'` default) — and it is exactly
`0` whenever that half-open window holds fewer than two samples. -/
theorem stdev_open_window (book : List BookRow)
    (hmono : List.Pairwise (fun a b : BookRow => a.ts < b.ts) book)
    (i : ℕ) (cur : BookRow) (hcur : book[i]? = some cur) :
    rolling_1s_stdev_bp book i =
      stdevBpOf ((book.filter
        (fun r => decide (cur.ts - 1 < r.ts ∧ r.ts ≤ cur.ts))).map (fun r => r.price))
        cur.price ∧
    (((book.filter (fun r => decide (cur.ts - 1 < r.ts ∧ r.ts ≤ cur.ts))).length < 2) →
      rolling_1s_stdev_bp book i = 0) := by
  have hsort : sortByTs book = book := sortByTs_eq_of_sorted book (hmono.imp le_of_lt)
  have h1 : rolling_1s_stdev_bp book i = stdevBpOf (winPrices 1 book i cur) cur.price := by
    rw [rolling_1s_stdev_bp, hsort, hcur]
  rw [h1, winPrices_eq_filter 1 book i cur hmono hcur]
  refine ⟨rfl, fun hlen => ?_⟩
  rw [stdevBpOf, if_pos (by simpa using hlen)]
  simp

/-- Witness for the corrected C4 on `c4book` at position 1. -/
theorem stdev_open_window_w :
    rolling_1s_stdev_bp c4book 1 =
      stdevBpOf ((c4book.filter
        (fun r => decide ((⟨1, 102, 0⟩ : BookRow).ts - 1 < r.ts ∧
          r.ts ≤ (⟨1, 102, 0⟩ : BookRow).ts))).map (fun r => r.price))
        (⟨1, 102, 0⟩ : BookRow).price ∧
    (((c4book.filter (fun r => decide ((⟨1, 102, 0⟩ : BookRow).ts - 1 < r.ts ∧
        r.ts ≤ (⟨1, 102, 0⟩ : BookRow).ts))).length < 2) →
      rolling_1s_stdev_bp c4book 1 = 0) :=
  stdev_open_window c4book (by decide!) 1 ⟨1, 102, 0⟩ (by decide!)
